import Mathlib

/-!
Verification development for the QuantumFlow market-signal repository.

The repository consists of a Next.js HTTP route (`src/app/api/market/route.ts`)
and a presentation page (`web/src/app/page.tsx`).  The route delegates all
numerical work to an indicator library (`@/lib/indicators`) whose source is not
part of the repository snapshot; that library is therefore modelled here from
the specification (each such definition carries a doc comment starting with
`Modelled from the spec:`).  The route-level logic (`buildFallbackSeries`,
`pickAsset`, `GET`, `buildResponse`) is translated directly from
`src/app/api/market/route.ts`.

Prices and indicator values are real numbers in the program; they are embedded
as rationals (`ℚ`), which supports every arithmetic operation the code uses
exactly.  "Undefined" indicator slots are `Option ℚ` with `none`.
-/

namespace QuantumFlow

/-- Error taxonomy of the indicator engine (spec section 7). -/
inductive IndicatorError where
  | invalidArgument
  | insufficientHistory
deriving DecidableEq, Repr

/-- Modelled from the spec: `computeSMA(series, window)` slot values.  For
index `i` the result is the arithmetic mean of the `window` values ending at
index `i`, defined only when `i >= window - 1` (equivalently
`window <= i + 1`); otherwise the slot is undefined. -/
def smaSlots (values : List ℚ) (window : ℕ) : List (Option ℚ) :=
  (List.range values.length).map fun i =>
    if 1 ≤ window ∧ window ≤ i + 1 then
      some (((values.drop (i + 1 - window)).take window).sum / window)
    else none

/-- Modelled from the spec: `computeSMA` fails with `InvalidArgument` when the
window is not positive, and otherwise returns one slot per input point.
(The route imports this function under the name `calculateSMA`.) -/
def computeSMA (values : List ℚ) (window : ℕ) :
    Except IndicatorError (List (Option ℚ)) :=
  if window = 0 then .error .invalidArgument else .ok (smaSlots values window)

/-- Value of the exponential moving average `k` steps after its seed index.
`seed` is the simple average of the first `period` values and `rest` is the
input series with those first `period` values dropped; each later output is
`α * value + (1 - α) * previous`. -/
def emaVal (α : ℚ) (seed : ℚ) (rest : List ℚ) : ℕ → ℚ
  | 0 => seed
  | k + 1 => α * rest.getD k 0 + (1 - α) * emaVal α seed rest k

/-- Modelled from the spec: `computeEMA(series, period)` slots.  The smoothing
factor is `α = 2 / (period + 1)`; the first `period - 1` outputs are undefined;
the output at index `period - 1` is the simple average of the first `period`
values; every later output is `α * value[i] + (1 - α) * previous`.  (A slot at
index `i < length` with `period ≤ i + 1` forces `period ≤ length`, so the
spec's `period > length` failure condition can never produce a defined slot.) -/
def emaSlots (values : List ℚ) (period : ℕ) : List (Option ℚ) :=
  (List.range values.length).map fun i =>
    if 1 ≤ period ∧ period ≤ i + 1 then
      some (emaVal (2 / (period + 1)) ((values.take period).sum / period)
        (values.drop period) (i + 1 - period))
    else none

/-- Per-step signed price deltas: `delta[j] = value[j+1] - value[j]`. -/
def deltasOf (values : List ℚ) : List ℚ :=
  List.zipWith (fun a b => b - a) values values.tail

/-- Wilder's smoothed average, `k` steps after the seed.  The seed is the
simple average of the first `period` entries and each update is
`avg = (avg * (period - 1) + current) / period`. -/
def wilderAvg (period : ℕ) (xs : List ℚ) : ℕ → ℚ
  | 0 => (xs.take period).sum / period
  | k + 1 => (wilderAvg period xs k * ((period : ℚ) - 1) + xs.getD (period + k) 0) / period

/-- Modelled from the spec: the RSI value from the smoothed average gain and
average loss: `100` when the average loss is zero and the average gain
positive, `50` when both are zero, otherwise `100 - 100 / (1 + gain/loss)`. -/
def rsiValue (gain loss : ℚ) : ℚ :=
  if loss = 0 then (if 0 < gain then 100 else 50)
  else 100 - 100 / (1 + gain / loss)

/-- Modelled from the spec: `computeRSI(series, period)`.  Indices before
`period` deltas are available are undefined; index `i ≥ period` uses Wilder's
smoothed average gain and loss over the first `i` deltas.  (The route imports
this function under the name `calculateRSI`.) -/
def computeRSI (values : List ℚ) (period : ℕ) : List (Option ℚ) :=
  let ds := deltasOf values
  let gs := ds.map fun d => max d 0
  let ls := ds.map fun d => max (-d) 0
  (List.range values.length).map fun i =>
    if 1 ≤ period ∧ period ≤ i then
      some (rsiValue (wilderAvg period gs (i - period)) (wilderAvg period ls (i - period)))
    else none

/-- Pointwise subtraction on optional values; defined only when both are. -/
def subOpt : Option ℚ → Option ℚ → Option ℚ
  | some a, some b => some (a - b)
  | _, _ => none

/-- The three parallel MACD output sequences (spec section 3). -/
structure MACDResult where
  macdLine : List (Option ℚ)
  signalLine : List (Option ℚ)
  histogram : List (Option ℚ)
deriving DecidableEq, Repr

/-- Modelled from the spec: `macdLine[i] = EMA(series, fast)[i] - EMA(series, slow)[i]`,
defined only where both EMAs are defined. -/
def macdLineSlots (values : List ℚ) (fast slow : ℕ) : List (Option ℚ) :=
  (List.range values.length).map fun i =>
    subOpt ((emaSlots values fast).getD i none) ((emaSlots values slow).getD i none)

/-- Modelled from the spec: the MACD triple.  The signal line is the EMA of the
macd line restricted to its defined suffix, re-indexed back onto the original
series positions with leading positions undefined, and
`histogram[i] = macdLine[i] - signalLine[i]` where both are defined. -/
def macdSlots (values : List ℚ) (fast slow signal : ℕ) : MACDResult :=
  let ml := macdLineSlots values fast slow
  let ds := ml.filterMap id
  let sl := List.replicate (values.length - ds.length) (none : Option ℚ) ++ emaSlots ds signal
  { macdLine := ml
    signalLine := sl
    histogram := (List.range values.length).map fun i => subOpt (ml.getD i none) (sl.getD i none) }

/-- Modelled from the spec: `computeMACD(series, fast, slow, signal)` fails with
`InvalidArgument` when `fast >= slow` or a period is not positive.  (The route
imports this function under the name `calculateMACD`.) -/
def computeMACD (values : List ℚ) (fast slow signal : ℕ) :
    Except IndicatorError MACDResult :=
  if fast = 0 ∨ signal = 0 ∨ slow ≤ fast then .error .invalidArgument
  else .ok (macdSlots values fast slow signal)

/-- The trading action of a Signal (spec section 3). -/
inductive Action where
  | BUY
  | SELL
  | HOLD
deriving DecidableEq, Repr

/-- The latest defined values snapshot inside a Signal (spec section 3 and the
`ApiResponse` type of `web/src/app/page.tsx`). -/
structure IndicatorSnapshot where
  short : ℚ
  long : ℚ
  rsi : ℚ
  macd : ℚ
  macdSignal : ℚ
  histogram : ℚ
  price : ℚ
deriving DecidableEq, Repr

/-- The Signal value object (spec section 3 and the `ApiResponse` type of
`web/src/app/page.tsx`). -/
structure Signal where
  action : Action
  confidence : ℚ
  summary : String
  bulletPoints : List String
  indicators : IndicatorSnapshot
deriving DecidableEq, Repr

/-- Modelled from the spec: the synthesizer configuration (spec section 6),
with the documented defaults.  `trendSensitivity` is one of the named scaling
constants the spec requires to be pinned down as configuration
(spec section 9); its numeric default is not observable from the call sites. -/
structure SignalConfig where
  shortWindow : ℕ := 12
  longWindow : ℕ := 48
  rsiPeriod : ℕ := 14
  macdFast : ℕ := 12
  macdSlow : ℕ := 26
  macdSignal : ℕ := 9
  trendWeight : ℚ := 2/5
  momentumWeight : ℚ := 3/10
  convergenceWeight : ℚ := 3/10
  buyThreshold : ℚ := 1/5
  sellThreshold : ℚ := -(1/5)
  trendSensitivity : ℚ := 20
deriving DecidableEq, Repr

/-- The default configuration used by the route (`generateSignal(series)`). -/
def defaultConfig : SignalConfig := {}

/-- Modelled from the spec: a well-formed configuration (spec sections 6 and 7):
positive periods, `fast < slow`, weights summing to a positive value, and
thresholds with `buy > 0 > sell`, both in `[-1, 1]`. -/
def validConfig (cfg : SignalConfig) : Prop :=
  1 ≤ cfg.shortWindow ∧ 1 ≤ cfg.longWindow ∧ 1 ≤ cfg.rsiPeriod ∧
  1 ≤ cfg.macdFast ∧ cfg.macdFast < cfg.macdSlow ∧ 1 ≤ cfg.macdSignal ∧
  0 < cfg.trendWeight + cfg.momentumWeight + cfg.convergenceWeight ∧
  0 < cfg.buyThreshold ∧ cfg.buyThreshold ≤ 1 ∧
  cfg.sellThreshold < 0 ∧ -1 ≤ cfg.sellThreshold

instance (cfg : SignalConfig) : Decidable (validConfig cfg) := by
  unfold validConfig; infer_instance

/-- The latest (most recent) defined value of an indicator series. -/
def latestDefined (l : List (Option ℚ)) : Option ℚ :=
  (l.filterMap id).getLast?

/-- Clamp a value to the interval `[lo, hi]`. -/
def clampQ (x lo hi : ℚ) : ℚ := max lo (min hi x)

/-- Modelled from the spec: the trend score, the relative SMA spread scaled by
the sensitivity constant and clamped to `[-1, 1]`. -/
def trendScore (cfg : SignalConfig) (short long : ℚ) : ℚ :=
  clampQ ((short - long) / long * cfg.trendSensitivity) (-1) 1

/-- Modelled from the spec: the momentum score, mapping RSI 30 to `+1`, 50 to
`0` and 70 to `-1`, linear in between and clamped to `[-1, 1]` outside. -/
def momentumScore (rsi : ℚ) : ℚ :=
  clampQ ((50 - rsi) / 20) (-1) 1

/-- Modelled from the spec: the normalization for the histogram magnitude.  The
spec leaves the rolling normalization open ("e.g., recent histogram range");
this model uses the largest defined histogram magnitude, floored at 1. -/
def histNorm (histogram : List (Option ℚ)) : ℚ :=
  max 1 (((histogram.filterMap id).map (fun h => |h|)).foldr max 0)

/-- Modelled from the spec: the convergence score, the sign of
`macdLine - macdSignal` scaled by the histogram magnitude relative to its
normalization, clamped to `[-1, 1]`. -/
def convergenceScore (macd macdSignal hist norm : ℚ) : ℚ :=
  clampQ ((if macdSignal < macd then 1 else if macd < macdSignal then -1 else 0) * (|hist| / norm))
    (-1) 1

/-- Latest defined short SMA of a series under a configuration. -/
def latestShort (values : List ℚ) (cfg : SignalConfig) : Option ℚ :=
  latestDefined (smaSlots values cfg.shortWindow)

/-- Latest defined long SMA of a series under a configuration. -/
def latestLong (values : List ℚ) (cfg : SignalConfig) : Option ℚ :=
  latestDefined (smaSlots values cfg.longWindow)

/-- Latest defined RSI of a series under a configuration. -/
def latestRSI (values : List ℚ) (cfg : SignalConfig) : Option ℚ :=
  latestDefined (computeRSI values cfg.rsiPeriod)

/-- The MACD triple of a series under a configuration. -/
def macdOf (values : List ℚ) (cfg : SignalConfig) : MACDResult :=
  macdSlots values cfg.macdFast cfg.macdSlow cfg.macdSignal

/-- Modelled from the spec: the series contains enough points for every
indicator (short SMA, long SMA, RSI, the three MACD lines) to produce at least
one defined value, and a latest price exists. -/
def hasHistory (values : List ℚ) (cfg : SignalConfig) : Prop :=
  (latestShort values cfg).isSome = true ∧
  (latestLong values cfg).isSome = true ∧
  (latestRSI values cfg).isSome = true ∧
  (latestDefined (macdOf values cfg).macdLine).isSome = true ∧
  (latestDefined (macdOf values cfg).signalLine).isSome = true ∧
  (latestDefined (macdOf values cfg).histogram).isSome = true ∧
  values.getLast?.isSome = true

instance (values : List ℚ) (cfg : SignalConfig) : Decidable (hasHistory values cfg) := by
  unfold hasHistory; infer_instance

/-- Modelled from the spec: the composite score, the weighted sum of the three
directional scores normalized by the weight sum; spec step 3 states the result
lies in `[-1, 1]`, so it is clamped to that interval. -/
def compositeOf (values : List ℚ) (cfg : SignalConfig) : ℚ :=
  let sh := (latestShort values cfg).getD 0
  let lo := (latestLong values cfg).getD 0
  let r := (latestRSI values cfg).getD 0
  let m := (latestDefined (macdOf values cfg).macdLine).getD 0
  let ms := (latestDefined (macdOf values cfg).signalLine).getD 0
  let h := (latestDefined (macdOf values cfg).histogram).getD 0
  let t := trendScore cfg sh lo
  let mo := momentumScore r
  let co := convergenceScore m ms h (histNorm (macdOf values cfg).histogram)
  clampQ
    ((cfg.trendWeight * t + cfg.momentumWeight * mo + cfg.convergenceWeight * co) /
      (cfg.trendWeight + cfg.momentumWeight + cfg.convergenceWeight))
    (-1) 1

/-- Name of an action inside the narrative strings. -/
def actionName : Action → String
  | .BUY => "BUY"
  | .SELL => "SELL"
  | .HOLD => "HOLD"

/-- A plain-language directional reading of a score. -/
def directionWord (x : ℚ) : String :=
  if 0 < x then "bullish" else if x < 0 then "bearish" else "neutral"

/-- Modelled from the spec: the dominant contributing factor, the factor with
the greatest absolute weighted contribution, ties resolved in the fixed order
trend, momentum, convergence. -/
def dominantFactor (cfg : SignalConfig) (t mo co : ℚ) : String :=
  let wt := |cfg.trendWeight * t|
  let wm := |cfg.momentumWeight * mo|
  let wc := |cfg.convergenceWeight * co|
  if wm ≤ wt ∧ wc ≤ wt then "trend" else if wc ≤ wm then "momentum" else "convergence"

/-- Modelled from the spec: build the Signal from a series that has enough
history under a valid configuration (spec section 4.5, steps 1-6). -/
def synthesize (values : List ℚ) (cfg : SignalConfig) : Signal :=
  let sh := (latestShort values cfg).getD 0
  let lo := (latestLong values cfg).getD 0
  let r := (latestRSI values cfg).getD 0
  let m := (latestDefined (macdOf values cfg).macdLine).getD 0
  let ms := (latestDefined (macdOf values cfg).signalLine).getD 0
  let h := (latestDefined (macdOf values cfg).histogram).getD 0
  let price := values.getLast?.getD 0
  let t := trendScore cfg sh lo
  let mo := momentumScore r
  let co := convergenceScore m ms h (histNorm (macdOf values cfg).histogram)
  let comp := compositeOf values cfg
  let act : Action :=
    if cfg.buyThreshold ≤ comp then .BUY
    else if comp ≤ cfg.sellThreshold then .SELL
    else .HOLD
  { action := act
    confidence := clampQ ((round (|comp| * 100) : ℤ) : ℚ) 0 100
    summary :=
      "Signal: " ++ actionName act ++ ", driven primarily by the " ++
        dominantFactor cfg t mo co ++ " factor."
    bulletPoints :=
      [ "Trend: short/long SMA spread reads " ++ directionWord t ++ "."
      , "Momentum: RSI positioning reads " ++ directionWord mo ++ "."
      , "Convergence: MACD against its signal line reads " ++ directionWord co ++ "." ]
    indicators :=
      { short := sh, long := lo, rsi := r, macd := m, macdSignal := ms,
        histogram := h, price := price } }

/-- Modelled from the spec: `generateSignal(series, config)` fails with
`InvalidArgument` on a malformed configuration, fails with
`InsufficientHistory` when not every indicator can produce at least one
defined value, and otherwise synthesizes the Signal deterministically. -/
def generateSignal (values : List ℚ) (cfg : SignalConfig) :
    Except IndicatorError Signal :=
  if validConfig cfg then
    if hasHistory values cfg then .ok (synthesize values cfg)
    else .error .insufficientHistory
  else .error .invalidArgument

/-! ## The HTTP route (`src/app/api/market/route.ts`) -/

/-- A supported asset entry (route.ts `SUPPORTED_ASSETS` element type). -/
structure Asset where
  id : String
  symbol : String
  name : String
deriving DecidableEq, Repr

/-- route.ts: the five supported assets. -/
def SUPPORTED_ASSETS : List Asset :=
  [ ⟨"bitcoin", "BTC", "Bitcoin"⟩
  , ⟨"ethereum", "ETH", "Ethereum"⟩
  , ⟨"solana", "SOL", "Solana"⟩
  , ⟨"ripple", "XRP", "XRP"⟩
  , ⟨"cardano", "ADA", "Cardano"⟩ ]

/-- route.ts: `DEFAULT_ASSET = SUPPORTED_ASSETS[0]` (bitcoin). -/
def DEFAULT_ASSET : Asset := ⟨"bitcoin", "BTC", "Bitcoin"⟩

/-- route.ts: `MARKET_DAYS = 7`. -/
def MARKET_DAYS : ℕ := 7

/-- route.ts `pickAsset`: the supported asset matching the id, the default
asset when the id is absent (`undefined` or the falsy empty string) or matches
no supported id. -/
def pickAsset : Option String → Asset
  | none => DEFAULT_ASSET
  | some s =>
    if s = "" then DEFAULT_ASSET
    else ((SUPPORTED_ASSETS.find? fun a => a.id == s).getD DEFAULT_ASSET)

/-- The asset chosen by `GET`: `pickAsset(assetParam?.toLowerCase())`. -/
def routeAsset (assetParam : Option String) : Asset :=
  pickAsset (assetParam.map String.toLower)

/-- route.ts `MarketPoint`: `{ time, value }`. -/
structure MarketPoint where
  time : ℤ
  value : ℚ
deriving DecidableEq, Repr

/-- route.ts: `parseFloat(x.toFixed(2))`, rounding to two decimal places. -/
def round2 (x : ℚ) : ℚ := ((round (x * 100) : ℤ) : ℚ) / 100

/-- The running `current` value inside the `buildFallbackSeries` loop, after
the step at loop counter `i = MARKET_DAYS * 24 - s` (the loop counts `i` down
from `MARKET_DAYS * 24` to `0`).  The trigonometric noise term
`Math.sin(i / 3) * 120 + Math.cos(i / 5) * 80` and the `Math.random()` draw of
each step are abstracted as the functions `noise` and `rand` of the loop
counter, so every theorem below holds for the actual transcendental noise. -/
def fallbackCurrent (noise rand : ℕ → ℚ) : ℕ → ℚ
  | 0 =>
    max 20000 (50000 + noise (MARKET_DAYS * 24) + (rand (MARKET_DAYS * 24) - 1/2) * 60)
  | s + 1 =>
    max 20000 (fallbackCurrent noise rand s + noise (MARKET_DAYS * 24 - (s + 1)) +
      (rand (MARKET_DAYS * 24 - (s + 1)) - 1/2) * 60)

/-- route.ts `buildFallbackSeries`: `MARKET_DAYS * 24 + 1` synthetic points,
one per hour, ending at `now`; each value is the clamped random walk rounded
to two decimals. -/
def buildFallbackSeries (now : ℤ) (noise rand : ℕ → ℚ) : List MarketPoint :=
  (List.range (MARKET_DAYS * 24 + 1)).map fun s =>
    { time := now - ((MARKET_DAYS * 24 - s : ℕ) : ℤ) * (60 * 60 * 1000)
      value := round2 (fallbackCurrent noise rand s) }

/-- route.ts: `toSeries` maps CoinGecko `[time, value]` pairs to points. -/
def toSeries (prices : List (ℤ × ℚ)) : List MarketPoint :=
  prices.map fun p => { time := p.1, value := p.2 }

/-- The JSON payload assembled by route.ts `buildResponse` (the fields the
claims are about). -/
structure ApiPayload where
  asset : Asset
  currency : String
  fallback : Bool
  signal : Signal
  series : List MarketPoint
  smaShort : List (Option ℚ)
  smaLong : List (Option ℚ)
  rsi : List (Option ℚ)
  macd : MACDResult
deriving DecidableEq, Repr

/-- route.ts `buildResponse`: computes the indicators and the signal over the
series and assembles the payload; a `generateSignal` failure (for example
`InsufficientHistory` on a short upstream series) propagates to the caller as
a thrown exception, modelled by `Except.error`. -/
def buildResponse (series : List MarketPoint) (asset : Asset) (currency : String)
    (fallback : Bool) : Except IndicatorError ApiPayload :=
  match generateSignal (series.map fun p => p.value) defaultConfig with
  | .error e => .error e
  | .ok sig =>
    .ok { asset := asset
          currency := currency
          fallback := fallback
          signal := sig
          series := series
          smaShort := smaSlots (series.map fun p => p.value) 12
          smaLong := smaSlots (series.map fun p => p.value) 48
          rsi := computeRSI (series.map fun p => p.value) 14
          macd := macdSlots (series.map fun p => p.value) 12 26 9 }

/-- The observable outcome of the upstream `fetch` call in `GET`: either the
fetch itself throws, or it yields a response with an `ok` flag and, when the
JSON payload's `prices` field is an array, that array. -/
inductive FetchOutcome where
  | failure
  | success (ok : Bool) (prices : Option (List (ℤ × ℚ)))
deriving DecidableEq, Repr

/-- The body of the `try` block of route.ts `GET`: a thrown fetch, a non-OK
status (which `GET` turns into a thrown `Error`) and a `buildResponse` failure
all escape to the `catch` handler (`Except.error ()`); otherwise the payload is
built from the upstream series, or from a synthetic series when `prices` is
missing, not an array, or empty. -/
def tryBlock (outcome : FetchOutcome) (asset : Asset) (currency : String)
    (now : ℤ) (noise rand : ℕ → ℚ) : Except Unit ApiPayload :=
  match outcome with
  | .failure => .error ()
  | .success false _ => .error ()
  | .success true pricesOpt =>
    if (pricesOpt.getD []).length ≠ 0 then
      (buildResponse (toSeries (pricesOpt.getD [])) asset currency false).mapError fun _ => ()
    else
      (buildResponse (buildFallbackSeries now noise rand) asset currency false).mapError
        fun _ => ()

/-- The route's reply: the JSON payload plus whether the `x-market-fallback`
header was attached. -/
structure RouteReply where
  payload : ApiPayload
  fallbackHeader : Bool
deriving DecidableEq, Repr

/-- route.ts `GET`, given the chosen asset and the fetch outcome: serve the
`try` block's payload without the header, or on any escape serve the synthetic
fallback payload (built with `fallback = true`) with the `x-market-fallback`
header.  An error here models an exception escaping the `catch` handler too
(shown below never to happen). -/
def routeGET (outcome : FetchOutcome) (asset : Asset) (currency : String)
    (now : ℤ) (noise rand : ℕ → ℚ) : Except IndicatorError RouteReply :=
  match tryBlock outcome asset currency now noise rand with
  | .ok payload => .ok { payload := payload, fallbackHeader := false }
  | .error _ =>
    (buildResponse (buildFallbackSeries now noise rand) asset currency true).map
      fun payload => { payload := payload, fallbackHeader := true }

/-- The exact history requirement of `generateSignal` under a valid
configuration: the least series length at which the short SMA, long SMA, RSI
and all three MACD lines each have at least one defined value. -/
def requiredHistory (cfg : SignalConfig) : ℕ :=
  max (max cfg.shortWindow cfg.longWindow)
    (max (cfg.rsiPeriod + 1) (cfg.macdSlow + cfg.macdSignal - 1))

/-- A valid configuration with small windows, used to exhibit that the history
requirement is not `max(shortWindow, longWindow, rsiPeriod, macdSlow + macdSignal)`. -/
def lowConfig : SignalConfig :=
  { shortWindow := 1, longWindow := 1, rsiPeriod := 1,
    macdFast := 2, macdSlow := 3, macdSignal := 2 }

/-- The payload served from the `catch` handler (and from the `try` block when
the upstream prices are missing or empty): `buildResponse` applied to the
synthetic fallback series. -/
def fallbackPayload (asset : Asset) (currency : String) (now : ℤ) (noise rand : ℕ → ℚ)
    (fb : Bool) : ApiPayload :=
  { asset := asset
    currency := currency
    fallback := fb
    signal := synthesize ((buildFallbackSeries now noise rand).map fun p => p.value)
      defaultConfig
    series := buildFallbackSeries now noise rand
    smaShort := smaSlots ((buildFallbackSeries now noise rand).map fun p => p.value) 12
    smaLong := smaSlots ((buildFallbackSeries now noise rand).map fun p => p.value) 48
    rsi := computeRSI ((buildFallbackSeries now noise rand).map fun p => p.value) 14
    macd := macdSlots ((buildFallbackSeries now noise rand).map fun p => p.value) 12 26 9 }

instance {ε α : Type} [DecidableEq ε] [DecidableEq α] : DecidableEq (Except ε α) :=
  fun x y =>
    match x, y with
    | .ok a, .ok b =>
      if h : a = b then isTrue (by rw [h]) else isFalse (by intro hc; injection hc; contradiction)
    | .error e, .error f =>
      if h : e = f then isTrue (by rw [h]) else isFalse (by intro hc; injection hc; contradiction)
    | .ok _, .error _ => isFalse (fun hc => Except.noConfusion hc)
    | .error _, .ok _ => isFalse (fun hc => Except.noConfusion hc)

attribute [local semireducible] Rat.add Rat.sub Rat.mul Rat.inv

/-! ## Basic lemmas about the slot lists -/

lemma getD_range_map {α : Type} (f : ℕ → α) (d : α) (n i : ℕ) :
    ((List.range n).map f).getD i d = if i < n then f i else d := by
  rw [List.getD_eq_getElem?_getD, List.getElem?_map]
  by_cases h : i < n
  · rw [List.getElem?_range h]; simp [h]
  · have : (List.range n)[i]? = none := by
      rw [List.getElem?_eq_none_iff]; simpa using Nat.le_of_not_lt h
    rw [this]; simp [h]

lemma mem_range_map {α : Type} {f : ℕ → α} {n : ℕ} {x : α} :
    x ∈ (List.range n).map f ↔ ∃ i, i < n ∧ f i = x := by
  simp [List.mem_map, List.mem_range]

lemma latestDefined_eq_none {l : List (Option ℚ)} :
    latestDefined l = none ↔ ∀ x ∈ l, x = none := by
  unfold latestDefined
  rw [List.getLast?_eq_none_iff, List.filterMap_eq_nil_iff]
  simp

lemma latestDefined_isSome {l : List (Option ℚ)} :
    (latestDefined l).isSome = true ↔ ∃ x ∈ l, x ≠ none := by
  rw [Option.isSome_iff_ne_none, Ne, latestDefined_eq_none]
  push_neg
  rfl

lemma latestDefined_isSome_range_map {n : ℕ} {g : ℕ → Option ℚ} :
    (latestDefined ((List.range n).map g)).isSome = true ↔ ∃ i, i < n ∧ g i ≠ none := by
  rw [latestDefined_isSome]
  constructor
  · rintro ⟨x, hx, hne⟩
    rcases mem_range_map.mp hx with ⟨i, hi, rfl⟩
    exact ⟨i, hi, hne⟩
  · rintro ⟨i, hi, hne⟩
    exact ⟨g i, mem_range_map.mpr ⟨i, hi, rfl⟩, hne⟩

lemma countP_range_le (c n : ℕ) :
    (List.range n).countP (fun i => decide (c ≤ i)) = n - c := by
  induction n with
  | zero => simp
  | succ n ih =>
    rw [List.range_succ, List.countP_append, ih]
    by_cases h : c ≤ n
    · simp only [List.countP_cons, List.countP_nil, decide_eq_true h]
      simp
      omega
    · simp only [List.countP_cons, List.countP_nil, decide_eq_false h]
      simp
      omega

lemma length_filterMap_id (l : List (Option ℚ)) :
    (l.filterMap id).length = l.countP (fun o => o.isSome) := by
  induction l with
  | nil => simp
  | cons x t ih => cases x <;> simp [List.filterMap_cons, List.countP_cons, ih]

lemma getD_replicate_append (m : ℕ) (L : List (Option ℚ)) (i : ℕ) :
    (List.replicate m (none : Option ℚ) ++ L).getD i none =
      if i < m then none else L.getD (i - m) none := by
  rw [List.getD_eq_getElem?_getD]
  by_cases h : i < m
  · rw [List.getElem?_append_left (by simpa using h)]
    simp [List.getElem?_replicate, h]
  · rw [List.getElem?_append_right (by simpa using Nat.le_of_not_lt h)]
    simp [List.getD_eq_getElem?_getD, h]

lemma latestDefined_replicate_append (m : ℕ) (L : List (Option ℚ)) :
    latestDefined (List.replicate m (none : Option ℚ) ++ L) = latestDefined L := by
  unfold latestDefined
  rw [List.filterMap_append,
    show List.filterMap id (List.replicate m (none : Option ℚ)) = [] from
      List.filterMap_eq_nil_iff.mpr fun a ha => by
        rw [List.eq_of_mem_replicate ha]; rfl,
    List.nil_append]

lemma subOpt_eq_none_iff (a b : Option ℚ) :
    subOpt a b = none ↔ a = none ∨ b = none := by
  cases a <;> cases b <;> simp [subOpt]

/-! ## Characterizations of the indicator slot lists -/

lemma length_smaSlots (values : List ℚ) (w : ℕ) :
    (smaSlots values w).length = values.length := by
  simp [smaSlots]

lemma smaSlots_getD (values : List ℚ) (w i : ℕ) :
    (smaSlots values w).getD i none =
      if i < values.length ∧ 1 ≤ w ∧ w ≤ i + 1 then
        some (((values.drop (i + 1 - w)).take w).sum / w)
      else none := by
  rw [smaSlots, getD_range_map]
  by_cases h1 : i < values.length
  · by_cases h2 : 1 ≤ w ∧ w ≤ i + 1 <;> simp [h1, h2]
  · simp [h1]

lemma length_emaSlots (values : List ℚ) (p : ℕ) :
    (emaSlots values p).length = values.length := by
  simp [emaSlots]

lemma emaSlots_getD (values : List ℚ) (p i : ℕ) :
    (emaSlots values p).getD i none =
      if i < values.length ∧ 1 ≤ p ∧ p ≤ i + 1 then
        some (emaVal (2 / (p + 1)) ((values.take p).sum / p) (values.drop p) (i + 1 - p))
      else none := by
  rw [emaSlots, getD_range_map]
  by_cases h1 : i < values.length
  · by_cases h2 : 1 ≤ p ∧ p ≤ i + 1 <;> simp [h1, h2]
  · simp [h1]

lemma length_computeRSI (values : List ℚ) (p : ℕ) :
    (computeRSI values p).length = values.length := by
  simp [computeRSI]

lemma length_deltasOf (values : List ℚ) :
    (deltasOf values).length = values.length - 1 := by
  simp [deltasOf, List.length_zipWith]

lemma computeRSI_getD (values : List ℚ) (p i : ℕ) :
    (computeRSI values p).getD i none =
      if i < values.length ∧ 1 ≤ p ∧ p ≤ i then
        some (rsiValue
          (wilderAvg p ((deltasOf values).map fun d => max d 0) (i - p))
          (wilderAvg p ((deltasOf values).map fun d => max (-d) 0) (i - p)))
      else none := by
  rw [computeRSI, getD_range_map]
  by_cases h1 : i < values.length
  · by_cases h2 : 1 ≤ p ∧ p ≤ i <;> simp [h1, h2]
  · simp [h1]

lemma length_macdLineSlots (values : List ℚ) (fast slow : ℕ) :
    (macdLineSlots values fast slow).length = values.length := by
  simp [macdLineSlots]

lemma macdSlots_macdLine (values : List ℚ) (fast slow signal : ℕ) :
    (macdSlots values fast slow signal).macdLine = macdLineSlots values fast slow := rfl

lemma macdSlots_signalLine (values : List ℚ) (fast slow signal : ℕ) :
    (macdSlots values fast slow signal).signalLine =
      List.replicate
          (values.length - ((macdLineSlots values fast slow).filterMap id).length)
          (none : Option ℚ) ++
        emaSlots ((macdLineSlots values fast slow).filterMap id) signal := rfl

lemma macdSlots_histogram (values : List ℚ) (fast slow signal : ℕ) :
    (macdSlots values fast slow signal).histogram =
      (List.range values.length).map fun i =>
        subOpt ((macdSlots values fast slow signal).macdLine.getD i none)
          ((macdSlots values fast slow signal).signalLine.getD i none) := rfl

lemma macdLineSlots_fun_ne_none (values : List ℚ) {fast slow : ℕ}
    (h1 : 1 ≤ fast) (hfs : fast ≤ slow) (i : ℕ) :
    subOpt ((emaSlots values fast).getD i none) ((emaSlots values slow).getD i none) ≠ none ↔
      i < values.length ∧ slow ≤ i + 1 := by
  rw [Ne, subOpt_eq_none_iff, emaSlots_getD, emaSlots_getD]
  by_cases hA : i < values.length ∧ 1 ≤ fast ∧ fast ≤ i + 1 <;>
    by_cases hB : i < values.length ∧ 1 ≤ slow ∧ slow ≤ i + 1 <;>
      simp [hA, hB] <;> omega

lemma macdLine_defined_iff (values : List ℚ) {fast slow : ℕ}
    (h1 : 1 ≤ fast) (hfs : fast ≤ slow) (i : ℕ) :
    (macdLineSlots values fast slow).getD i none ≠ none ↔
      i < values.length ∧ slow ≤ i + 1 := by
  rw [macdLineSlots, getD_range_map]
  by_cases h : i < values.length
  · rw [if_pos h]; exact macdLineSlots_fun_ne_none values h1 hfs i
  · simp [h]

lemma ds_length (values : List ℚ) {fast slow : ℕ} (h1 : 1 ≤ fast) (hfs : fast ≤ slow) :
    ((macdLineSlots values fast slow).filterMap id).length = values.length + 1 - slow := by
  rw [length_filterMap_id, macdLineSlots, List.countP_map]
  rw [@List.countP_congr _ _ (fun i => decide (slow - 1 ≤ i)) _ ?_, countP_range_le]
  · omega
  · intro i hi
    rw [List.mem_range] at hi
    simp only [Function.comp_apply, Option.isSome_iff_ne_none, decide_eq_true_eq]
    rw [macdLineSlots_fun_ne_none values h1 hfs i]
    omega

lemma length_signalLine (values : List ℚ) (fast slow signal : ℕ) :
    (macdSlots values fast slow signal).signalLine.length = values.length := by
  rw [macdSlots_signalLine, List.length_append, List.length_replicate, length_emaSlots]
  have := List.length_filterMap_le (id : Option ℚ → Option ℚ) (macdLineSlots values fast slow)
  rw [length_macdLineSlots] at this
  omega

lemma length_histogram (values : List ℚ) (fast slow signal : ℕ) :
    (macdSlots values fast slow signal).histogram.length = values.length := by
  rw [macdSlots_histogram]
  simp

lemma signalLine_defined_iff (values : List ℚ) {fast slow signal : ℕ}
    (h1 : 1 ≤ fast) (hfs : fast < slow) (hg : 1 ≤ signal) (i : ℕ) :
    (macdSlots values fast slow signal).signalLine.getD i none ≠ none ↔
      i < values.length ∧ slow + signal - 1 ≤ i + 1 := by
  have hk : ((macdLineSlots values fast slow).filterMap id).length
      = values.length + 1 - slow := ds_length values h1 (Nat.le_of_lt hfs)
  rw [macdSlots_signalLine, getD_replicate_append]
  by_cases hrep : i < values.length - ((macdLineSlots values fast slow).filterMap id).length
  · rw [if_pos hrep]
    simp only [ne_eq, not_true_eq_false, false_iff, not_and]
    intro hi
    omega
  · rw [if_neg hrep, emaSlots_getD]
    by_cases hc : i - (values.length - ((macdLineSlots values fast slow).filterMap id).length) <
        ((macdLineSlots values fast slow).filterMap id).length ∧
        1 ≤ signal ∧
        signal ≤ i - (values.length - ((macdLineSlots values fast slow).filterMap id).length) + 1
    · rw [if_pos hc]
      simp only [ne_eq, reduceCtorEq, not_false_eq_true, true_iff]
      omega
    · rw [if_neg hc]
      simp only [ne_eq, not_true_eq_false, false_iff, not_and]
      intro hi
      omega

lemma histogram_getD (values : List ℚ) (fast slow signal : ℕ) (i : ℕ) :
    (macdSlots values fast slow signal).histogram.getD i none =
      if i < values.length then
        subOpt ((macdSlots values fast slow signal).macdLine.getD i none)
          ((macdSlots values fast slow signal).signalLine.getD i none)
      else none := by
  rw [macdSlots_histogram, getD_range_map]

/-! ## At least one defined value: per-indicator characterizations -/

lemma latest_smaSlots_isSome (values : List ℚ) {w : ℕ} (hw : 1 ≤ w) :
    (latestDefined (smaSlots values w)).isSome = true ↔ w ≤ values.length := by
  rw [smaSlots, latestDefined_isSome_range_map]
  constructor
  · rintro ⟨i, hi, hne⟩
    by_cases hc : 1 ≤ w ∧ w ≤ i + 1
    · omega
    · rw [if_neg hc] at hne; exact absurd rfl hne
  · intro h
    refine ⟨values.length - 1, by omega, ?_⟩
    rw [if_pos ⟨hw, by omega⟩]
    simp

lemma latest_computeRSI_isSome (values : List ℚ) {p : ℕ} (hp : 1 ≤ p) :
    (latestDefined (computeRSI values p)).isSome = true ↔ p + 1 ≤ values.length := by
  rw [computeRSI, latestDefined_isSome_range_map]
  constructor
  · rintro ⟨i, hi, hne⟩
    by_cases hc : 1 ≤ p ∧ p ≤ i
    · omega
    · rw [if_neg hc] at hne; exact absurd rfl hne
  · intro h
    refine ⟨values.length - 1, by omega, ?_⟩
    rw [if_pos ⟨hp, by omega⟩]
    simp

lemma latest_macdLine_isSome (values : List ℚ) {fast slow : ℕ}
    (h1 : 1 ≤ fast) (hfs : fast ≤ slow) :
    (latestDefined (macdLineSlots values fast slow)).isSome = true ↔
      slow ≤ values.length := by
  rw [macdLineSlots, latestDefined_isSome_range_map]
  constructor
  · rintro ⟨i, hi, hne⟩
    have := (macdLineSlots_fun_ne_none values h1 hfs i).mp hne
    omega
  · intro h
    refine ⟨values.length - 1, by omega, ?_⟩
    rw [macdLineSlots_fun_ne_none values h1 hfs]
    omega

lemma latest_emaSlots_isSome (values : List ℚ) {p : ℕ} (hp : 1 ≤ p) :
    (latestDefined (emaSlots values p)).isSome = true ↔ p ≤ values.length := by
  rw [emaSlots, latestDefined_isSome_range_map]
  constructor
  · rintro ⟨i, hi, hne⟩
    by_cases hc : 1 ≤ p ∧ p ≤ i + 1
    · omega
    · rw [if_neg hc] at hne; exact absurd rfl hne
  · intro h
    refine ⟨values.length - 1, by omega, ?_⟩
    rw [if_pos ⟨hp, by omega⟩]
    simp

lemma latest_signalLine_isSome (values : List ℚ) {fast slow signal : ℕ}
    (h1 : 1 ≤ fast) (hfs : fast < slow) (hg : 1 ≤ signal) :
    (latestDefined (macdSlots values fast slow signal).signalLine).isSome = true ↔
      slow + signal - 1 ≤ values.length := by
  rw [macdSlots_signalLine, latestDefined_replicate_append, latest_emaSlots_isSome _ hg,
    ds_length values h1 (Nat.le_of_lt hfs)]
  omega

lemma latest_histogram_isSome (values : List ℚ) {fast slow signal : ℕ}
    (h1 : 1 ≤ fast) (hfs : fast < slow) (hg : 1 ≤ signal) :
    (latestDefined (macdSlots values fast slow signal).histogram).isSome = true ↔
      slow + signal - 1 ≤ values.length := by
  rw [macdSlots_histogram, latestDefined_isSome_range_map]
  constructor
  · rintro ⟨i, hi, hne⟩
    rw [Ne, subOpt_eq_none_iff] at hne
    push_neg at hne
    have := (signalLine_defined_iff values h1 hfs hg i).mp hne.2
    omega
  · intro h
    refine ⟨values.length - 1, by omega, ?_⟩
    rw [Ne, subOpt_eq_none_iff]
    push_neg
    constructor
    · rw [macdSlots_macdLine]
      exact (macdLine_defined_iff values h1 (Nat.le_of_lt hfs) _).mpr (by omega)
    · exact (signalLine_defined_iff values h1 hfs hg _).mpr (by omega)

/-! ## `hasHistory` and `generateSignal` -/

lemma getLast?_isSome_iff_length (values : List ℚ) :
    values.getLast?.isSome = true ↔ 1 ≤ values.length := by
  rw [List.getLast?_isSome, ← List.length_pos]
  omega

lemma hasHistory_iff (values : List ℚ) (cfg : SignalConfig) (h : validConfig cfg) :
    hasHistory values cfg ↔ requiredHistory cfg ≤ values.length := by
  obtain ⟨hsw, hlw, hrp, hf, hfs, hsg, -⟩ := h
  unfold hasHistory latestShort latestLong latestRSI macdOf requiredHistory
  rw [latest_smaSlots_isSome values hsw, latest_smaSlots_isSome values hlw,
    latest_computeRSI_isSome values hrp, macdSlots_macdLine,
    latest_macdLine_isSome values hf (Nat.le_of_lt hfs),
    latest_signalLine_isSome values hf hfs hsg,
    latest_histogram_isSome values hf hfs hsg,
    getLast?_isSome_iff_length]
  omega

lemma generateSignal_ok (values : List ℚ) (cfg : SignalConfig)
    (hv : validConfig cfg) (hh : hasHistory values cfg) :
    generateSignal values cfg = .ok (synthesize values cfg) := by
  unfold generateSignal
  rw [if_pos hv, if_pos hh]

lemma generateSignal_ok_inv {values : List ℚ} {cfg : SignalConfig} {sig : Signal}
    (h : generateSignal values cfg = .ok sig) :
    validConfig cfg ∧ hasHistory values cfg ∧ sig = synthesize values cfg := by
  unfold generateSignal at h
  by_cases hv : validConfig cfg
  · rw [if_pos hv] at h
    by_cases hh : hasHistory values cfg
    · rw [if_pos hh] at h
      injection h with h
      exact ⟨hv, hh, h.symm⟩
    · rw [if_neg hh] at h
      exact absurd h (by simp)
  · rw [if_neg hv] at h
    exact absurd h (by simp)

lemma validConfig_default : validConfig defaultConfig := by decide

lemma requiredHistory_default : requiredHistory defaultConfig = 48 := by decide

/-! ## RSI: range and extreme values -/

lemma wilderAvg_nonneg {p : ℕ} (hp : 1 ≤ p) {xs : List ℚ} (hxs : ∀ x ∈ xs, 0 ≤ x) :
    ∀ k, 0 ≤ wilderAvg p xs k
  | 0 => by
    apply div_nonneg
    · exact List.sum_nonneg fun x hx => hxs x (List.take_subset p xs hx)
    · positivity
  | k + 1 => by
    rw [wilderAvg]
    apply div_nonneg
    · apply add_nonneg
      · apply mul_nonneg (wilderAvg_nonneg hp hxs k)
        have : (1 : ℚ) ≤ (p : ℚ) := by exact_mod_cast hp
        linarith
      · by_cases h : p + k < xs.length
        · rw [List.getD_eq_getElem xs 0 h]
          exact hxs _ (List.getElem_mem h)
        · rw [List.getD_eq_default xs 0 (Nat.le_of_not_lt h)]
    · positivity

lemma wilderAvg_eq_zero {p : ℕ} {xs : List ℚ} (hxs : ∀ x ∈ xs, x = 0) :
    ∀ k, wilderAvg p xs k = 0
  | 0 => by
    rw [wilderAvg, List.sum_eq_zero fun x hx => hxs x (List.take_subset p xs hx), zero_div]
  | k + 1 => by
    rw [wilderAvg, wilderAvg_eq_zero hxs k]
    have hz : xs.getD (p + k) 0 = 0 := by
      by_cases h : p + k < xs.length
      · rw [List.getD_eq_getElem xs 0 h]
        exact hxs _ (List.getElem_mem h)
      · exact List.getD_eq_default xs 0 (Nat.le_of_not_lt h)
    rw [hz]
    ring_nf

lemma wilderAvg_pos {p : ℕ} (hp : 1 ≤ p) {xs : List ℚ} (hlen : p ≤ xs.length)
    (hxs : ∀ x ∈ xs, 0 < x) : ∀ k, p + k ≤ xs.length → 0 < wilderAvg p xs k
  | 0, _ => by
    rw [wilderAvg]
    apply div_pos
    · apply List.sum_pos
      · exact fun x hx => hxs x (List.take_subset p xs hx)
      · have : (xs.take p).length = p := by rw [List.length_take]; omega
        intro hnil
        rw [hnil] at this
        simp at this
        omega
    · exact_mod_cast hp
  | k + 1, hk => by
    rw [wilderAvg]
    apply div_pos
    · apply add_pos_of_nonneg_of_pos
      · apply mul_nonneg (le_of_lt (wilderAvg_pos hp hlen hxs k (by omega)))
        have : (1 : ℚ) ≤ (p : ℚ) := by exact_mod_cast hp
        linarith
      · have h : p + k < xs.length := by omega
        rw [List.getD_eq_getElem xs 0 h]
        exact hxs _ (List.getElem_mem h)
    · exact_mod_cast hp

lemma rsiValue_bounds {g l : ℚ} (hg : 0 ≤ g) (hl : 0 ≤ l) :
    0 ≤ rsiValue g l ∧ rsiValue g l ≤ 100 := by
  rw [rsiValue]
  by_cases h0 : l = 0
  · rw [if_pos h0]
    by_cases h1 : 0 < g
    · rw [if_pos h1]; norm_num
    · rw [if_neg h1]; norm_num
  · rw [if_neg h0]
    have hlpos : 0 < l := lt_of_le_of_ne hl (Ne.symm h0)
    have hx : 0 ≤ g / l := div_nonneg hg (le_of_lt hlpos)
    have h1 : (0 : ℚ) < 100 / (1 + g / l) := div_pos (by norm_num) (by linarith)
    have h2 : 100 / (1 + g / l) ≤ 100 := div_le_self (by norm_num) (by linarith)
    constructor <;> linarith

lemma rsiValue_gain {g : ℚ} (hg : 0 < g) : rsiValue g 0 = 100 := by
  rw [rsiValue, if_pos rfl, if_pos hg]

lemma rsiValue_loss {l : ℚ} (hl : 0 < l) : rsiValue 0 l = 0 := by
  rw [rsiValue, if_neg (ne_of_gt hl)]
  rw [zero_div, add_zero, div_one]
  ring

lemma rsiValue_flat : rsiValue 0 0 = 50 := by
  rw [rsiValue, if_pos rfl, if_neg (lt_irrefl 0)]

lemma deltasOf_cons₂ (a b : ℚ) (t : List ℚ) :
    deltasOf (a :: b :: t) = (b - a) :: deltasOf (b :: t) := rfl

lemma chain_lt_deltas_pos : ∀ values : List ℚ, List.Chain' (· < ·) values →
    ∀ d ∈ deltasOf values, 0 < d
  | [], _, d, hd => by simp [deltasOf] at hd
  | [_], _, d, hd => by simp [deltasOf] at hd
  | a :: b :: t, h, d, hd => by
    rw [deltasOf_cons₂] at hd
    rcases List.mem_cons.mp hd with rfl | hm
    · have := (List.chain'_cons.mp h).1
      linarith
    · exact chain_lt_deltas_pos (b :: t) (List.chain'_cons.mp h).2 d hm

lemma chain_gt_deltas_neg : ∀ values : List ℚ, List.Chain' (· > ·) values →
    ∀ d ∈ deltasOf values, d < 0
  | [], _, d, hd => by simp [deltasOf] at hd
  | [_], _, d, hd => by simp [deltasOf] at hd
  | a :: b :: t, h, d, hd => by
    rw [deltasOf_cons₂] at hd
    rcases List.mem_cons.mp hd with rfl | hm
    · have : b < a := (List.chain'_cons.mp h).1
      linarith
    · exact chain_gt_deltas_neg (b :: t) (List.chain'_cons.mp h).2 d hm

lemma const_deltas_zero : ∀ (values : List ℚ) (c : ℚ), (∀ x ∈ values, x = c) →
    ∀ d ∈ deltasOf values, d = 0
  | [], _, _, d, hd => by simp [deltasOf] at hd
  | [_], _, _, d, hd => by simp [deltasOf] at hd
  | a :: b :: t, c, hc, d, hd => by
    rw [deltasOf_cons₂] at hd
    rcases List.mem_cons.mp hd with rfl | hm
    · rw [hc a (by simp), hc b (by simp)]
      ring
    · exact const_deltas_zero (b :: t) c (fun x hx => hc x (List.mem_cons_of_mem a hx)) d hm

lemma computeRSI_slot {values : List ℚ} {p i : ℕ}
    (h : (computeRSI values p).getD i none ≠ none) :
    i < values.length ∧ 1 ≤ p ∧ p ≤ i ∧
      (computeRSI values p).getD i none =
        some (rsiValue
          (wilderAvg p ((deltasOf values).map fun d => max d 0) (i - p))
          (wilderAvg p ((deltasOf values).map fun d => max (-d) 0) (i - p))) := by
  rw [computeRSI_getD] at h ⊢
  by_cases hc : i < values.length ∧ 1 ≤ p ∧ p ≤ i
  · rw [if_pos hc]
    exact ⟨hc.1, hc.2.1, hc.2.2, rfl⟩
  · rw [if_neg hc] at h
    exact absurd rfl h

/-! ## Claim theorems -/

/-- C5: for every series of length `n` and positive window `w`, `computeSMA`
succeeds and returns exactly `n` slots with exactly `max (n + 1 - w) 0` defined
values; the slot at index `i` is defined exactly when `w - 1 ≤ i`, and every
defined value is the arithmetic mean of the `w` values ending at index `i`. -/
theorem computeSMA_slots_spec (values : List ℚ) (w : ℕ) (hw : 1 ≤ w) :
    computeSMA values w = .ok (smaSlots values w) ∧
    (smaSlots values w).length = values.length ∧
    (smaSlots values w).countP (fun o => o.isSome) = max (values.length + 1 - w) 0 ∧
    (∀ i, i < values.length →
      (((smaSlots values w).getD i none).isSome = true ↔ w - 1 ≤ i)) ∧
    (∀ i, i < values.length → w ≤ i + 1 →
      (smaSlots values w).getD i none =
        some (((values.drop (i + 1 - w)).take w).sum / w)) := by
  refine ⟨?_, length_smaSlots values w, ?_, ?_, ?_⟩
  · rw [computeSMA, if_neg (by omega)]
  · rw [smaSlots, List.countP_map,
      @List.countP_congr _ _ (fun i => decide (w - 1 ≤ i)) _ ?_, countP_range_le]
    · omega
    · intro i hi
      simp only [Function.comp_apply]
      by_cases hc : w - 1 ≤ i
      · rw [if_pos ⟨hw, by omega⟩, decide_eq_true hc]
        simp
      · rw [if_neg (by omega), decide_eq_false hc]
        simp
  · intro i hi
    rw [smaSlots_getD]
    by_cases hc : w - 1 ≤ i
    · rw [if_pos ⟨hi, hw, by omega⟩]
      simp [hc]
    · rw [if_neg (by omega)]
      simp [hc]
  · intro i hi hwi
    rw [smaSlots_getD, if_pos ⟨hi, hw, hwi⟩]

/-- Witness for C5 at the concrete series `[1, 2, 3]` with window `2`. -/
theorem computeSMA_slots_spec_witness :
    computeSMA [(1 : ℚ), 2, 3] 2 = .ok (smaSlots [(1 : ℚ), 2, 3] 2) ∧
    (smaSlots [(1 : ℚ), 2, 3] 2).countP (fun o => o.isSome) =
      max ([(1 : ℚ), 2, 3].length + 1 - 2) 0 ∧
    (smaSlots [(1 : ℚ), 2, 3] 2).getD 2 none =
      some (((([(1 : ℚ), 2, 3].drop (2 + 1 - 2)).take 2).sum) / 2) :=
  ⟨(computeSMA_slots_spec [1, 2, 3] 2 (by decide)).1,
   (computeSMA_slots_spec [1, 2, 3] 2 (by decide)).2.2.1,
   (computeSMA_slots_spec [1, 2, 3] 2 (by decide)).2.2.2.2 2 (by decide) (by decide)⟩

/-- C6: every defined `computeRSI` value lies in `[0, 100]`; on a strictly
increasing series every defined slot equals 100, on a strictly decreasing
series every defined slot equals 0, and on a flat series every defined slot
equals 50. -/
theorem computeRSI_range_and_extremes :
    (∀ (values : List ℚ) (p i : ℕ) (v : ℚ), 1 ≤ p →
        (computeRSI values p).getD i none = some v → 0 ≤ v ∧ v ≤ 100) ∧
    (∀ (values : List ℚ) (p i : ℕ), 1 ≤ p → List.Chain' (· < ·) values →
        (computeRSI values p).getD i none ≠ none →
        (computeRSI values p).getD i none = some 100) ∧
    (∀ (values : List ℚ) (p i : ℕ), 1 ≤ p → List.Chain' (· > ·) values →
        (computeRSI values p).getD i none ≠ none →
        (computeRSI values p).getD i none = some 0) ∧
    (∀ (values : List ℚ) (p i : ℕ) (c : ℚ), 1 ≤ p → (∀ x ∈ values, x = c) →
        (computeRSI values p).getD i none ≠ none →
        (computeRSI values p).getD i none = some 50) := by
  refine ⟨?_, ?_, ?_, ?_⟩
  · intro values p i v hp h
    obtain ⟨hi, -, hpi, heq⟩ := @computeRSI_slot values p i (by rw [h]; simp)
    rw [h] at heq
    injection heq with heq
    rw [heq]
    apply rsiValue_bounds
    · apply wilderAvg_nonneg hp
      rintro x hx
      rcases List.mem_map.mp hx with ⟨d, -, rfl⟩
      exact le_max_right d 0
    · apply wilderAvg_nonneg hp
      rintro x hx
      rcases List.mem_map.mp hx with ⟨d, -, rfl⟩
      exact le_max_right (-d) 0
  · intro values p i hp hchain hne
    obtain ⟨hi, -, hpi, heq⟩ := computeRSI_slot hne
    rw [heq]
    have hlen : ((deltasOf values).map fun d => max d 0).length = values.length - 1 := by
      rw [List.length_map, length_deltasOf]
    have hL : wilderAvg p ((deltasOf values).map fun d => max (-d) 0) (i - p) = 0 := by
      apply wilderAvg_eq_zero
      rintro x hx
      rcases List.mem_map.mp hx with ⟨d, hd, rfl⟩
      have := chain_lt_deltas_pos values hchain d hd
      exact max_eq_right (by linarith)
    have hG : 0 < wilderAvg p ((deltasOf values).map fun d => max d 0) (i - p) := by
      apply wilderAvg_pos hp (by omega)
      · rintro x hx
        rcases List.mem_map.mp hx with ⟨d, hd, rfl⟩
        exact lt_of_lt_of_le (chain_lt_deltas_pos values hchain d hd) (le_max_left d 0)
      · omega
    rw [hL, rsiValue_gain hG]
  · intro values p i hp hchain hne
    obtain ⟨hi, -, hpi, heq⟩ := computeRSI_slot hne
    rw [heq]
    have hlen : ((deltasOf values).map fun d => max (-d) 0).length = values.length - 1 := by
      rw [List.length_map, length_deltasOf]
    have hG : wilderAvg p ((deltasOf values).map fun d => max d 0) (i - p) = 0 := by
      apply wilderAvg_eq_zero
      rintro x hx
      rcases List.mem_map.mp hx with ⟨d, hd, rfl⟩
      have := chain_gt_deltas_neg values hchain d hd
      exact max_eq_right (by linarith)
    have hL : 0 < wilderAvg p ((deltasOf values).map fun d => max (-d) 0) (i - p) := by
      apply wilderAvg_pos hp (by omega)
      · rintro x hx
        rcases List.mem_map.mp hx with ⟨d, hd, rfl⟩
        have := chain_gt_deltas_neg values hchain d hd
        exact lt_of_lt_of_le (by linarith) (le_max_left (-d) 0)
      · omega
    rw [hG, rsiValue_loss hL]
  · intro values p i c hp hconst hne
    obtain ⟨hi, -, hpi, heq⟩ := computeRSI_slot hne
    rw [heq]
    have hG : wilderAvg p ((deltasOf values).map fun d => max d 0) (i - p) = 0 := by
      apply wilderAvg_eq_zero
      rintro x hx
      rcases List.mem_map.mp hx with ⟨d, hd, rfl⟩
      rw [const_deltas_zero values c hconst d hd]
      simp
    have hL : wilderAvg p ((deltasOf values).map fun d => max (-d) 0) (i - p) = 0 := by
      apply wilderAvg_eq_zero
      rintro x hx
      rcases List.mem_map.mp hx with ⟨d, hd, rfl⟩
      rw [const_deltas_zero values c hconst d hd]
      simp
    rw [hG, hL, rsiValue_flat]

/-- Witness for C6 at the concrete rising, falling and flat series
`[1, 2, 3]`, `[3, 2, 1]` and `[5, 5, 5]` with period `1`. -/
theorem computeRSI_range_and_extremes_witness :
    (computeRSI [(1 : ℚ), 2, 3] 1).getD 2 none = some 100 ∧
    (computeRSI [(3 : ℚ), 2, 1] 1).getD 2 none = some 0 ∧
    (computeRSI [(5 : ℚ), 5, 5] 1).getD 2 none = some 50 ∧
    0 ≤ (0 : ℚ) ∧ (0 : ℚ) ≤ 100 :=
  ⟨computeRSI_range_and_extremes.2.1 [1, 2, 3] 1 2 (by decide)
      (by simp [List.chain'_cons, List.chain'_singleton]; norm_num) (by decide),
   computeRSI_range_and_extremes.2.2.1 [3, 2, 1] 1 2 (by decide)
      (by simp [List.chain'_cons, List.chain'_singleton]; norm_num) (by decide),
   computeRSI_range_and_extremes.2.2.2 [5, 5, 5] 1 2 5 (by decide) (by decide) (by decide),
   computeRSI_range_and_extremes.1 [3, 2, 1] 1 2 0 (by decide) (by decide)⟩

/-- C1: for every series and valid MACD periods, `computeMACD` succeeds and
the three output sequences all have exactly the length of the input series
(optional slots, not shortened dense arrays), with the signal line re-indexed
onto the original series positions: every position before index
`slow + signal - 2` is undefined. -/
theorem computeMACD_shape (values : List ℚ) (fast slow signal : ℕ)
    (h1 : 1 ≤ fast) (hfs : fast < slow) (hg : 1 ≤ signal) :
    computeMACD values fast slow signal = .ok (macdSlots values fast slow signal) ∧
    (macdSlots values fast slow signal).macdLine.length = values.length ∧
    (macdSlots values fast slow signal).signalLine.length = values.length ∧
    (macdSlots values fast slow signal).histogram.length = values.length ∧
    (∀ i, i + 2 < slow + signal →
      (macdSlots values fast slow signal).signalLine.getD i none = none) := by
  refine ⟨?_, ?_, length_signalLine values fast slow signal,
    length_histogram values fast slow signal, ?_⟩
  · rw [computeMACD, if_neg (by omega)]
  · rw [macdSlots_macdLine, length_macdLineSlots]
  · intro i hi
    by_contra hne
    have := (signalLine_defined_iff values h1 hfs hg i).mp hne
    omega

/-- Witness for C1 at the concrete series `[1, 2, 3]` with the default MACD
periods `12/26/9`. -/
theorem computeMACD_shape_witness :
    computeMACD [(1 : ℚ), 2, 3] 12 26 9 = .ok (macdSlots [(1 : ℚ), 2, 3] 12 26 9) ∧
    (macdSlots [(1 : ℚ), 2, 3] 12 26 9).macdLine.length = [(1 : ℚ), 2, 3].length ∧
    (macdSlots [(1 : ℚ), 2, 3] 12 26 9).signalLine.getD 0 none = none :=
  ⟨(computeMACD_shape [1, 2, 3] 12 26 9 (by decide) (by decide) (by decide)).1,
   (computeMACD_shape [1, 2, 3] 12 26 9 (by decide) (by decide) (by decide)).2.1,
   (computeMACD_shape [1, 2, 3] 12 26 9 (by decide) (by decide) (by decide)).2.2.2.2 0
     (by decide)⟩

/-- C2: whenever `computeMACD` succeeds, at every index where both the macd
line and the signal line are defined, the histogram value equals the macd-line
value minus the signal-line value. -/
theorem macd_histogram_identity (values : List ℚ) (fast slow signal : ℕ)
    (r : MACDResult) (h : computeMACD values fast slow signal = .ok r) :
    ∀ i a b, r.macdLine.getD i none = some a → r.signalLine.getD i none = some b →
      r.histogram.getD i none = some (a - b) := by
  have hr : r = macdSlots values fast slow signal := by
    rw [computeMACD] at h
    by_cases hc : fast = 0 ∨ signal = 0 ∨ slow ≤ fast
    · rw [if_pos hc] at h
      exact absurd h (by simp)
    · rw [if_neg hc] at h
      injection h with h
      exact h.symm
  subst hr
  intro i a b ha hb
  rw [histogram_getD]
  by_cases hi : i < values.length
  · rw [if_pos hi, ha, hb]
    rfl
  · rw [macdSlots_macdLine] at ha
    have hlen : (macdLineSlots values fast slow).length ≤ i := by
      rw [length_macdLineSlots]
      omega
    rw [List.getD_eq_default _ _ hlen] at ha
    exact absurd ha (by simp)

/-- Witness for C2 at the concrete series `[0, 1]` with periods `1/2/1`, where
index 1 has macd line and signal line both `1/2` and histogram `0`. -/
theorem macd_histogram_identity_witness :
    (macdSlots [(0 : ℚ), 1] 1 2 1).histogram.getD 1 none = some ((1 : ℚ)/2 - 1/2) :=
  macd_histogram_identity [0, 1] 1 2 1 (macdSlots [0, 1] 1 2 1) (by decide) 1 (1/2) (1/2)
    (by decide) (by decide)

/-- C3 counterexample: under the valid configuration `lowConfig`, the series
`[1, 2, 3, 4]` is shorter than
`max(shortWindow, longWindow, rsiPeriod, macdSlow + macdSignal) = 5`, yet
`generateSignal` succeeds rather than failing with `InsufficientHistory`:
every indicator, including the MACD signal line (first defined at index
`macdSlow + macdSignal - 2 = 3`), already has a defined value. -/
theorem generateSignal_history_cex :
    validConfig lowConfig ∧
    [(1 : ℚ), 2, 3, 4].length <
      max (max lowConfig.shortWindow lowConfig.longWindow)
        (max lowConfig.rsiPeriod (lowConfig.macdSlow + lowConfig.macdSignal)) ∧
    generateSignal [(1 : ℚ), 2, 3, 4] lowConfig ≠ .error .insufficientHistory := by
  refine ⟨by decide, by decide, ?_⟩
  decide

/-- C3 amended: under a valid configuration, `generateSignal` fails with
`InsufficientHistory` exactly when the series length is less than
`max(shortWindow, longWindow, rsiPeriod + 1, macdSlow + macdSignal - 1)`
(`requiredHistory`; 48 under the default configuration, so in particular every
series of length 5 fails by the witness below). -/
theorem generateSignal_insufficient_iff (values : List ℚ) (cfg : SignalConfig)
    (hv : validConfig cfg) :
    generateSignal values cfg = .error .insufficientHistory ↔
      values.length < requiredHistory cfg := by
  rw [generateSignal, if_pos hv]
  by_cases hh : hasHistory values cfg
  · have hle := (hasHistory_iff values cfg hv).mp hh
    rw [if_pos hh]
    exact iff_of_false (by simp) (by omega)
  · have hlt : ¬ requiredHistory cfg ≤ values.length :=
      fun hle => hh ((hasHistory_iff values cfg hv).mpr hle)
    rw [if_neg hh]
    exact iff_of_true rfl (by omega)

/-- Witness for the amended C3: a series of length 5 fails with
`InsufficientHistory` under the default configuration. -/
theorem generateSignal_insufficient_iff_witness :
    generateSignal [(1 : ℚ), 2, 3, 4, 5] defaultConfig = .error .insufficientHistory :=
  (generateSignal_insufficient_iff [1, 2, 3, 4, 5] defaultConfig (by decide)).mpr (by decide)

/-- C4: `generateSignal` is deterministic: two invocations on an identical
series and identical configuration produce identical results, and in
particular identical action, confidence, summary, bullet points and indicator
snapshot when both succeed. -/
theorem generateSignal_deterministic (v₁ v₂ : List ℚ) (c₁ c₂ : SignalConfig)
    (hv : v₁ = v₂) (hc : c₁ = c₂) :
    generateSignal v₁ c₁ = generateSignal v₂ c₂ ∧
    ∀ s₁ s₂, generateSignal v₁ c₁ = .ok s₁ → generateSignal v₂ c₂ = .ok s₂ →
      s₁.action = s₂.action ∧ s₁.confidence = s₂.confidence ∧
      s₁.summary = s₂.summary ∧ s₁.bulletPoints = s₂.bulletPoints ∧
      s₁.indicators = s₂.indicators := by
  subst hv
  subst hc
  refine ⟨rfl, ?_⟩
  intro s₁ s₂ h₁ h₂
  rw [h₁] at h₂
  injection h₂ with h
  subst h
  exact ⟨rfl, rfl, rfl, rfl, rfl⟩

/-- Witness for C4 at a concrete series and the default configuration. -/
theorem generateSignal_deterministic_witness :
    generateSignal [(1 : ℚ)] defaultConfig = generateSignal [(1 : ℚ)] defaultConfig :=
  (generateSignal_deterministic [1] [1] defaultConfig defaultConfig rfl rfl).1

lemma clampQ_mem (x lo hi : ℚ) (h : lo ≤ hi) :
    lo ≤ clampQ x lo hi ∧ clampQ x lo hi ≤ hi := by
  unfold clampQ
  exact ⟨le_max_left lo _, max_le h (min_le_left hi x)⟩

lemma clampQ_of_mem {x lo hi : ℚ} (h1 : lo ≤ x) (h2 : x ≤ hi) :
    clampQ x lo hi = x := by
  unfold clampQ
  rw [min_eq_right h2, max_eq_right h1]

lemma compositeOf_bounds (values : List ℚ) (cfg : SignalConfig) :
    -1 ≤ compositeOf values cfg ∧ compositeOf values cfg ≤ 1 :=
  clampQ_mem _ (-1) 1 (by norm_num)

lemma synthesize_action (values : List ℚ) (cfg : SignalConfig) :
    (synthesize values cfg).action =
      if cfg.buyThreshold ≤ compositeOf values cfg then .BUY
      else if compositeOf values cfg ≤ cfg.sellThreshold then .SELL
      else .HOLD := rfl

lemma synthesize_confidence (values : List ℚ) (cfg : SignalConfig) :
    (synthesize values cfg).confidence =
      clampQ ((round (|compositeOf values cfg| * 100) : ℤ) : ℚ) 0 100 := rfl

lemma round_nonneg_of_nonneg {x : ℚ} (h : 0 ≤ x) : 0 ≤ round x := by
  rw [round_eq]
  exact Int.le_floor.mpr (by push_cast; linarith)

lemma round_le_hundred {x : ℚ} (h : x ≤ 100) : round x ≤ 100 := by
  rw [round_eq]
  by_contra hcon
  push_neg at hcon
  have h1 : ((⌊x + 1/2⌋ : ℤ) : ℚ) ≤ x + 1/2 := Int.floor_le _
  have h2 : ((101 : ℤ) : ℚ) ≤ ((⌊x + 1/2⌋ : ℤ) : ℚ) := by exact_mod_cast hcon
  push_cast at h2
  linarith

/-- C7: whenever `generateSignal` succeeds, the returned action is BUY exactly
when the composite score is at least the buy threshold, SELL exactly when it is
at most the sell threshold, HOLD otherwise; and the returned confidence equals
`round(|composite| * 100)` and lies in `[0, 100]`. -/
theorem generateSignal_action_confidence (values : List ℚ) (cfg : SignalConfig)
    (sig : Signal) (h : generateSignal values cfg = .ok sig) :
    (sig.action = .BUY ↔ cfg.buyThreshold ≤ compositeOf values cfg) ∧
    (sig.action = .SELL ↔ compositeOf values cfg ≤ cfg.sellThreshold) ∧
    (sig.action = .HOLD ↔ ¬ cfg.buyThreshold ≤ compositeOf values cfg ∧
      ¬ compositeOf values cfg ≤ cfg.sellThreshold) ∧
    sig.confidence = ((round (|compositeOf values cfg| * 100) : ℤ) : ℚ) ∧
    0 ≤ sig.confidence ∧ sig.confidence ≤ 100 := by
  obtain ⟨hv, hh, rfl⟩ := generateSignal_ok_inv h
  obtain ⟨-, -, -, -, -, -, -, hbuy, -, hsell, -⟩ := hv
  obtain ⟨hcl, hcu⟩ := compositeOf_bounds values cfg
  have habs : |compositeOf values cfg| ≤ 1 := abs_le.mpr ⟨hcl, hcu⟩
  have habs0 : 0 ≤ |compositeOf values cfg| := abs_nonneg _
  have hr0 : 0 ≤ round (|compositeOf values cfg| * 100) :=
    round_nonneg_of_nonneg (by nlinarith)
  have hr100 : round (|compositeOf values cfg| * 100) ≤ 100 :=
    round_le_hundred (by nlinarith)
  have hq0 : (0 : ℚ) ≤ ((round (|compositeOf values cfg| * 100) : ℤ) : ℚ) := by
    exact_mod_cast hr0
  have hq100 : ((round (|compositeOf values cfg| * 100) : ℤ) : ℚ) ≤ 100 := by
    exact_mod_cast hr100
  have hconf : (synthesize values cfg).confidence =
      ((round (|compositeOf values cfg| * 100) : ℤ) : ℚ) := by
    rw [synthesize_confidence, clampQ_of_mem hq0 hq100]
  refine ⟨?_, ?_, ?_, hconf, ?_, ?_⟩
  · rw [synthesize_action]
    by_cases h1 : cfg.buyThreshold ≤ compositeOf values cfg
    · rw [if_pos h1]
      exact iff_of_true rfl h1
    · rw [if_neg h1]
      by_cases h2 : compositeOf values cfg ≤ cfg.sellThreshold
      · rw [if_pos h2]
        exact iff_of_false (by simp) h1
      · rw [if_neg h2]
        exact iff_of_false (by simp) h1
  · rw [synthesize_action]
    by_cases h1 : cfg.buyThreshold ≤ compositeOf values cfg
    · rw [if_pos h1]
      exact iff_of_false (by simp) (by intro h2; linarith)
    · rw [if_neg h1]
      by_cases h2 : compositeOf values cfg ≤ cfg.sellThreshold
      · rw [if_pos h2]
        exact iff_of_true rfl h2
      · rw [if_neg h2]
        exact iff_of_false (by simp) h2
  · rw [synthesize_action]
    by_cases h1 : cfg.buyThreshold ≤ compositeOf values cfg
    · rw [if_pos h1]
      exact iff_of_false (by simp) (fun hx => hx.1 h1)
    · rw [if_neg h1]
      by_cases h2 : compositeOf values cfg ≤ cfg.sellThreshold
      · rw [if_pos h2]
        exact iff_of_false (by simp) (fun hx => hx.2 h2)
      · rw [if_neg h2]
        exact iff_of_true rfl ⟨h1, h2⟩
  · rw [hconf]
    exact hq0
  · rw [hconf]
    exact hq100

/-- Witness for C7 at a flat 48-point series under the default configuration. -/
theorem generateSignal_action_confidence_witness :
    (synthesize (List.replicate 48 (100 : ℚ)) defaultConfig).confidence =
      ((round (|compositeOf (List.replicate 48 (100 : ℚ)) defaultConfig| * 100) : ℤ) : ℚ) ∧
    0 ≤ (synthesize (List.replicate 48 (100 : ℚ)) defaultConfig).confidence ∧
    ((synthesize (List.replicate 48 (100 : ℚ)) defaultConfig).action = .HOLD ↔
      ¬ defaultConfig.buyThreshold ≤
          compositeOf (List.replicate 48 (100 : ℚ)) defaultConfig ∧
        ¬ compositeOf (List.replicate 48 (100 : ℚ)) defaultConfig ≤
            defaultConfig.sellThreshold) :=
  ⟨(generateSignal_action_confidence (List.replicate 48 100) defaultConfig _
      (generateSignal_ok _ _ (by decide) (by decide))).2.2.2.1,
   (generateSignal_action_confidence (List.replicate 48 100) defaultConfig _
      (generateSignal_ok _ _ (by decide) (by decide))).2.2.2.2.1,
   (generateSignal_action_confidence (List.replicate 48 100) defaultConfig _
      (generateSignal_ok _ _ (by decide) (by decide))).2.2.1⟩

/-! ## Route-level lemmas -/

lemma length_buildFallbackSeries (now : ℤ) (noise rand : ℕ → ℚ) :
    (buildFallbackSeries now noise rand).length = MARKET_DAYS * 24 + 1 := by
  simp [buildFallbackSeries]

lemma fallbackCurrent_ge (noise rand : ℕ → ℚ) (s : ℕ) :
    20000 ≤ fallbackCurrent noise rand s := by
  cases s <;> exact le_max_left _ _

lemma round2_ge20000 {x : ℚ} (h : 20000 ≤ x) : 20000 ≤ round2 x := by
  unfold round2
  have h1 : (2000000 : ℤ) ≤ round (x * 100) := by
    rw [round_eq]
    refine Int.le_floor.mpr ?_
    push_cast
    linarith
  have h2 : ((2000000 : ℤ) : ℚ) ≤ ((round (x * 100) : ℤ) : ℚ) := by exact_mod_cast h1
  push_cast at h2
  linarith

lemma fallback_hasHistory (now : ℤ) (noise rand : ℕ → ℚ) :
    hasHistory ((buildFallbackSeries now noise rand).map fun p => p.value) defaultConfig := by
  rw [hasHistory_iff _ _ validConfig_default, requiredHistory_default, List.length_map,
    length_buildFallbackSeries]
  norm_num [MARKET_DAYS]

lemma buildResponse_ok (series : List MarketPoint) (asset : Asset) (currency : String)
    (fb : Bool) (hh : hasHistory (series.map fun p => p.value) defaultConfig) :
    buildResponse series asset currency fb = .ok
      { asset := asset
        currency := currency
        fallback := fb
        signal := synthesize (series.map fun p => p.value) defaultConfig
        series := series
        smaShort := smaSlots (series.map fun p => p.value) 12
        smaLong := smaSlots (series.map fun p => p.value) 48
        rsi := computeRSI (series.map fun p => p.value) 14
        macd := macdSlots (series.map fun p => p.value) 12 26 9 } := by
  unfold buildResponse
  rw [generateSignal_ok _ _ validConfig_default hh]

lemma buildResponse_ok_inv {series : List MarketPoint} {asset : Asset} {currency : String}
    {fb : Bool} {p : ApiPayload} (h : buildResponse series asset currency fb = .ok p) :
    p.fallback = fb ∧ p.series = series := by
  unfold buildResponse at h
  cases hg : generateSignal (series.map fun pt => pt.value) defaultConfig with
  | error e =>
    rw [hg] at h
    exact absurd h (by simp)
  | ok sig =>
    rw [hg] at h
    injection h with h
    rw [← h]
    exact ⟨rfl, rfl⟩

lemma tryBlock_ok_inv {outcome : FetchOutcome} {asset : Asset} {currency : String}
    {now : ℤ} {noise rand : ℕ → ℚ} {p : ApiPayload}
    (h : tryBlock outcome asset currency now noise rand = .ok p) :
    p.fallback = false := by
  cases outcome with
  | failure => exact absurd h (by simp [tryBlock])
  | success ok pricesOpt =>
    cases ok with
    | false => exact absurd h (by simp [tryBlock])
    | true =>
      simp only [tryBlock] at h
      generalize hfb : buildFallbackSeries now noise rand = fb at h
      by_cases hl : (pricesOpt.getD []).length ≠ 0
      · rw [if_pos hl] at h
        cases hbr : buildResponse (toSeries (pricesOpt.getD [])) asset currency false with
        | error e => rw [hbr] at h; exact absurd h (by simp [Except.mapError])
        | ok q =>
          rw [hbr] at h
          simp only [Except.mapError, Except.ok.injEq] at h
          rw [← h]
          exact (buildResponse_ok_inv hbr).1
      · rw [if_neg hl] at h
        cases hbr : buildResponse fb asset currency false with
        | error e => rw [hbr] at h; exact absurd h (by simp [Except.mapError])
        | ok q =>
          rw [hbr] at h
          simp only [Except.mapError, Except.ok.injEq] at h
          rw [← h]
          exact (buildResponse_ok_inv hbr).1

lemma routeGET_eq_ok {outcome : FetchOutcome} {asset : Asset} {currency : String}
    {now : ℤ} {noise rand : ℕ → ℚ} {payload : ApiPayload}
    (h : tryBlock outcome asset currency now noise rand = .ok payload) :
    routeGET outcome asset currency now noise rand =
      .ok { payload := payload, fallbackHeader := false } := by
  unfold routeGET
  rw [h]

lemma routeGET_eq_catch {outcome : FetchOutcome} {asset : Asset} {currency : String}
    {now : ℤ} {noise rand : ℕ → ℚ}
    (h : tryBlock outcome asset currency now noise rand = .error ()) :
    routeGET outcome asset currency now noise rand =
      .ok { payload := fallbackPayload asset currency now noise rand true
            fallbackHeader := true } := by
  unfold routeGET
  rw [h, buildResponse_ok _ _ _ _ (fallback_hasHistory now noise rand)]
  rfl

/-- C8 amended: the `x-market-fallback` header is attached and the payload's
`fallback` field is true exactly when the `try` block escapes to the `catch`
handler, which happens when the fetch throws, when the status is non-OK, and
also when `buildResponse` on the upstream-derived series throws (for example
`InsufficientHistory` on a short upstream series); on an OK response whose
`prices` payload is missing, not an array, or empty, the synthetic fallback
series is served with `fallback = false` and no header. -/
theorem routeGET_fallback_spec (outcome : FetchOutcome) (asset : Asset) (currency : String)
    (now : ℤ) (noise rand : ℕ → ℚ) :
    (∀ reply, routeGET outcome asset currency now noise rand = .ok reply →
      (reply.fallbackHeader = true ↔
        tryBlock outcome asset currency now noise rand = .error ()) ∧
      reply.payload.fallback = reply.fallbackHeader) ∧
    (∀ pricesOpt, pricesOpt.getD [] = [] → outcome = .success true pricesOpt →
      ∃ p, routeGET outcome asset currency now noise rand =
          .ok { payload := p, fallbackHeader := false } ∧
        p.fallback = false ∧ p.series = buildFallbackSeries now noise rand) ∧
    ((outcome = .failure ∨ ∃ po, outcome = .success false po) →
      ∃ p, routeGET outcome asset currency now noise rand =
          .ok { payload := p, fallbackHeader := true } ∧ p.fallback = true) := by
  refine ⟨?_, ?_, ?_⟩
  · intro reply hr
    cases htb : tryBlock outcome asset currency now noise rand with
    | ok payload =>
      rw [routeGET_eq_ok htb, Except.ok.injEq] at hr
      rw [← hr]
      exact ⟨iff_of_false (by simp) (by simp), tryBlock_ok_inv htb⟩
    | error u =>
      cases u
      rw [routeGET_eq_catch htb, Except.ok.injEq] at hr
      rw [← hr]
      exact ⟨iff_of_true rfl rfl, rfl⟩
  · intro pricesOpt hempty hout
    subst hout
    have htb : tryBlock (.success true pricesOpt) asset currency now noise rand =
        .ok (fallbackPayload asset currency now noise rand false) := by
      simp only [tryBlock]
      rw [hempty, if_neg (by simp),
        buildResponse_ok _ _ _ _ (fallback_hasHistory now noise rand)]
      rfl
    exact ⟨fallbackPayload asset currency now noise rand false, routeGET_eq_ok htb, rfl, rfl⟩
  · intro h
    have htb : tryBlock outcome asset currency now noise rand = .error () := by
      rcases h with rfl | ⟨po, rfl⟩ <;> rfl
    exact ⟨fallbackPayload asset currency now noise rand true, routeGET_eq_catch htb, rfl⟩

/-- C8 counterexample: an upstream fetch that succeeds with an OK status and a
one-point `prices` array still produces the fallback payload with
`fallback = true` and the `x-market-fallback` header, because `buildResponse`
fails with `InsufficientHistory` inside the `try` block; hence the header is
not reserved to thrown fetches and non-OK statuses. -/
theorem routeGET_header_cex :
    ∃ p, routeGET (.success true (some [((0 : ℤ), 100)])) DEFAULT_ASSET "usd" 0
        (fun _ => 0) (fun _ => 0) =
        .ok { payload := p, fallbackHeader := true } ∧ p.fallback = true := by
  have hbr : buildResponse (toSeries [((0 : ℤ), 100)]) DEFAULT_ASSET "usd" false =
      .error .insufficientHistory := by
    unfold buildResponse
    rw [show generateSignal ((toSeries [((0 : ℤ), 100)]).map fun p => p.value) defaultConfig =
        .error .insufficientHistory by decide]
  have htb : tryBlock (.success true (some [((0 : ℤ), 100)])) DEFAULT_ASSET "usd" 0
      (fun _ => 0) (fun _ => 0) = .error () := by
    simp only [tryBlock, Option.getD_some]
    rw [if_pos (by decide), hbr]
    rfl
  exact ⟨fallbackPayload DEFAULT_ASSET "usd" 0 (fun _ => 0) (fun _ => 0) true,
    routeGET_eq_catch htb, rfl⟩

/-- Witness for C8 at an OK response with an absent `prices` array. -/
theorem routeGET_fallback_spec_witness :
    ∃ p, routeGET (.success true none) DEFAULT_ASSET "usd" 0 (fun _ => 0) (fun _ => 0) =
        .ok { payload := p, fallbackHeader := false } ∧
      p.fallback = false ∧ p.series = buildFallbackSeries 0 (fun _ => 0) (fun _ => 0) :=
  (routeGET_fallback_spec (.success true none) DEFAULT_ASSET "usd" 0 (fun _ => 0)
    (fun _ => 0)).2.1 none rfl rfl

/-- C9: the synthetic fallback series always has exactly
`MARKET_DAYS * 24 + 1 = 169` points with strictly increasing timestamps spaced
exactly one hour (3 600 000 ms) apart and ending at the current time, every
value at least 20000; its length exceeds every default indicator requirement,
so `generateSignal` with the default configuration succeeds on it. -/
theorem buildFallbackSeries_spec (now : ℤ) (noise rand : ℕ → ℚ) :
    (buildFallbackSeries now noise rand).length = MARKET_DAYS * 24 + 1 ∧
    (buildFallbackSeries now noise rand).length = 169 ∧
    (∀ s t, s < t → t < (buildFallbackSeries now noise rand).length →
      ((buildFallbackSeries now noise rand).getD s ⟨0, 0⟩).time <
        ((buildFallbackSeries now noise rand).getD t ⟨0, 0⟩).time) ∧
    (∀ s, s + 1 < (buildFallbackSeries now noise rand).length →
      ((buildFallbackSeries now noise rand).getD (s + 1) ⟨0, 0⟩).time =
        ((buildFallbackSeries now noise rand).getD s ⟨0, 0⟩).time + 60 * 60 * 1000) ∧
    ((buildFallbackSeries now noise rand).getD (MARKET_DAYS * 24) ⟨0, 0⟩).time = now ∧
    (∀ pt ∈ buildFallbackSeries now noise rand, 20000 ≤ pt.value) ∧
    (∃ sig, generateSignal ((buildFallbackSeries now noise rand).map fun p => p.value)
        defaultConfig = .ok sig) := by
  have hlen := length_buildFallbackSeries now noise rand
  refine ⟨hlen, by rw [hlen]; rfl, ?_, ?_, ?_, ?_,
    ⟨_, generateSignal_ok _ _ validConfig_default (fallback_hasHistory now noise rand)⟩⟩
  · intro s t hst ht
    rw [hlen] at ht
    rw [buildFallbackSeries, getD_range_map _ _ _ s, getD_range_map _ _ _ t,
      if_pos (by omega), if_pos (by omega)]
    dsimp only
    simp only [MARKET_DAYS] at ht ⊢
    omega
  · intro s hs
    rw [hlen] at hs
    rw [buildFallbackSeries, getD_range_map _ _ _ (s + 1), getD_range_map _ _ _ s,
      if_pos (by omega), if_pos (by omega)]
    dsimp only
    simp only [MARKET_DAYS] at hs ⊢
    omega
  · rw [buildFallbackSeries, getD_range_map, if_pos (by omega)]
    dsimp only
    simp only [MARKET_DAYS]
    omega
  · intro pt hpt
    rw [buildFallbackSeries] at hpt
    rcases mem_range_map.mp hpt with ⟨s, hs, rfl⟩
    dsimp only
    exact round2_ge20000 (fallbackCurrent_ge noise rand s)

/-- Witness for C9 at `now = 0` with vanishing noise and randomness. -/
theorem buildFallbackSeries_spec_witness :
    (buildFallbackSeries 0 (fun _ => 0) (fun _ => 0)).length = 169 ∧
    ((buildFallbackSeries 0 (fun _ => 0) (fun _ => 0)).getD 0 ⟨0, 0⟩).time <
      ((buildFallbackSeries 0 (fun _ => 0) (fun _ => 0)).getD 1 ⟨0, 0⟩).time := by
  have h := buildFallbackSeries_spec 0 (fun _ => 0) (fun _ => 0)
  exact ⟨h.2.1, h.2.2.1 0 1 (by norm_num) (by rw [h.2.1]; norm_num)⟩

lemma pickAsset_mem (x : Option String) : pickAsset x ∈ SUPPORTED_ASSETS := by
  cases x with
  | none => decide
  | some s =>
    simp only [pickAsset]
    by_cases he : s = ""
    · rw [if_pos he]
      decide
    · rw [if_neg he]
      cases hf : SUPPORTED_ASSETS.find? (fun a => a.id == s) with
      | none =>
        simp only [Option.getD_none]
        decide
      | some a =>
        simp only [Option.getD_some]
        exact List.mem_of_find?_eq_some hf

/-- C10: the asset served by `GET` is always one of the five supported assets:
it is the supported asset whose id equals the lowercased `asset` query
parameter when one matches, and the default asset (bitcoin) when the parameter
is absent or matches no supported id. -/
theorem routeAsset_spec (assetParam : Option String) :
    routeAsset assetParam ∈ SUPPORTED_ASSETS ∧
    (∀ a ∈ SUPPORTED_ASSETS, assetParam.map String.toLower = some a.id →
      routeAsset assetParam = a) ∧
    (assetParam = none → routeAsset assetParam = DEFAULT_ASSET) ∧
    ((∀ a ∈ SUPPORTED_ASSETS, assetParam.map String.toLower ≠ some a.id) →
      routeAsset assetParam = DEFAULT_ASSET) ∧
    DEFAULT_ASSET ∈ SUPPORTED_ASSETS ∧
    SUPPORTED_ASSETS.length = 5 := by
  refine ⟨pickAsset_mem _, ?_, ?_, ?_, by decide, by decide⟩
  · intro a ha hmap
    unfold routeAsset
    rw [hmap]
    simp only [SUPPORTED_ASSETS, List.mem_cons, List.not_mem_nil, or_false] at ha
    rcases ha with rfl | rfl | rfl | rfl | rfl <;> decide
  · intro h
    subst h
    rfl
  · intro hno
    unfold routeAsset
    cases hx : assetParam.map String.toLower with
    | none => rfl
    | some s =>
      simp only [pickAsset]
      by_cases he : s = ""
      · rw [if_pos he]
      · rw [if_neg he]
        have hf : SUPPORTED_ASSETS.find? (fun a => a.id == s) = none := by
          rw [List.find?_eq_none]
          intro x hx'
          simp only [beq_iff_eq]
          intro heq
          exact hno x hx' (by rw [hx, heq])
        rw [hf, Option.getD_none]

/-- Witness for C10 at an absent asset parameter. -/
theorem routeAsset_spec_witness :
    routeAsset none = DEFAULT_ASSET ∧ routeAsset none ∈ SUPPORTED_ASSETS :=
  ⟨(routeAsset_spec none).2.2.1 rfl, (routeAsset_spec none).1⟩

end QuantumFlow
